import Mathlib

/-!
Verification of the completion client of ai-author-gui (src/apiService.ts)
against its specification. The TypeScript client is shallowly embedded:
JavaScript strings are modelled through their UTF-16 code units, 32-bit
signed integer arithmetic through unsigned representatives modulo 2^32,
JSON values through an inductive type with an executable parser, and the
stateful completion operations through pure functions that take the cache,
the current time and a description of what the network would answer, and
return the outcome together with the new cache and an indicator of whether
the network was contacted.
-/

/-- Decimal digit character for a value below 10. -/
def decDigit (n : Nat) : Char := Char.ofNat (48 + n)

/-- Digit characters of a natural number, most significant first
(fuel-driven so that the kernel can evaluate it). -/
def natDecimalAux (fuel : Nat) (n : Nat) : List Char :=
  match fuel with
  | 0 => []
  | fuel + 1 =>
    if n < 10 then [decDigit n]
    else natDecimalAux fuel (n / 10) ++ [decDigit (n % 10)]

/-- Decimal rendering of a natural number, as JavaScript renders an
integral number. -/
def natDecimal (n : Nat) : String := String.mk (natDecimalAux (n + 1) n)

/-- Decimal rendering of an integer, as JavaScript renders an integral
number (JSON.stringify of a safe integer). -/
def intDecimal (i : Int) : String :=
  if i < 0 then "-" ++ natDecimal i.natAbs else natDecimal i.natAbs

/-- JSON values, the result of JSON.parse. Numbers are modelled as exact
rationals (every JSON numeric literal denotes m * 10^e); objects keep
their fields in insertion order with unique keys. -/
inductive Json where
  | null
  | bool (b : Bool)
  | num (q : Rat)
  | str (s : String)
  | arr (elts : List Json)
  | obj (fields : List (String × Json))

/-- Field lookup in an object, first (hence unique) occurrence. -/
def jget (fields : List (String × Json)) (k : String) : Option Json :=
  match fields with
  | [] => none
  | (k2, v) :: rest => if k2 = k then some v else jget rest k

/-- Insert or overwrite a field, keeping the original position on
overwrite, as JavaScript property assignment does. -/
def jinsert (fields : List (String × Json)) (k : String) (v : Json) :
    List (String × Json) :=
  match fields with
  | [] => [(k, v)]
  | (k2, v2) :: rest =>
    if k2 = k then (k2, v) :: rest else (k2, v2) :: jinsert rest k v

/-- JavaScript truthiness of a JSON value (there is no NaN among parsed
JSON values, so a number is falsy exactly when it is zero). -/
def jsTruthy : Json → Bool
  | .null => false
  | .bool b => b
  | .num q => q.num != 0
  | .str s => s != ""
  | .arr _ => true
  | .obj _ => true

/-- Strip trailing zero digits of a fraction part. -/
def stripTrailingZeros (l : List Char) : List Char :=
  (l.reverse.dropWhile (fun c => c = '0')).reverse

/-- Decimal rendering of a rational with up to twenty fractional digits.
This stands in for the canonical JavaScript number-to-string conversion;
it agrees with it on integers and on short decimal fractions, which are
the only numbers the client ever stringifies. -/
def ratRender (q : Rat) : String :=
  if q.den = 1 then intDecimal q.num
  else
    let sign := if q.num < 0 then "-" else ""
    let scaled := q.num.natAbs * 10 ^ 20 / q.den
    let ip := scaled / 10 ^ 20
    let fr := scaled % 10 ^ 20
    let digs := (List.range 20).map (fun i => decDigit (fr / 10 ^ (19 - i) % 10))
    let frs := stripTrailingZeros digs
    if frs = [] then sign ++ natDecimal ip
    else sign ++ natDecimal ip ++ "." ++ String.mk frs

mutual

/-- JavaScript string conversion of a JSON value; inArr records whether
the value sits inside an array join, where null renders as the empty
string as Array.prototype.join prescribes. -/
def jsToStringV (inArr : Bool) : Json → String
  | .null => if inArr then "" else "null"
  | .bool b => if b then "true" else "false"
  | .num q => ratRender q
  | .str s => s
  | .arr l => String.intercalate "," (jsToStringL l)
  | .obj _ => "[object Object]"

/-- String conversions of the elements of an array, in order. -/
def jsToStringL : List Json → List String
  | [] => []
  | j :: rest => jsToStringV true j :: jsToStringL rest

end

/-- JavaScript string conversion of a JSON value. -/
def jsToString (j : Json) : String := jsToStringV false j

/-- Role of a chat message (src/types.ts, interface Message). -/
inductive Role where
  | system
  | user
  | assistant
deriving DecidableEq

/-- Wire name of a role. -/
def Role.toName : Role → String
  | .system => "system"
  | .user => "user"
  | .assistant => "assistant"

/-- A chat message (src/types.ts, interface Message): a role and a
content string. -/
structure Message where
  role : Role
  content : String
deriving DecidableEq

/-- Lowercase hexadecimal digit character for a value below 16. -/
def hexChar (n : Nat) : Char :=
  if n < 10 then Char.ofNat (48 + n) else Char.ofNat (87 + n)

/-- Escape of one character under JSON.stringify. -/
def jsonEscapeChar (c : Char) : List Char :=
  if c = '"' then ['\\', '"']
  else if c = '\\' then ['\\', '\\']
  else if c = Char.ofNat 8 then ['\\', 'b']
  else if c = '\t' then ['\\', 't']
  else if c = '\n' then ['\\', 'n']
  else if c = Char.ofNat 12 then ['\\', 'f']
  else if c = Char.ofNat 13 then ['\\', 'r']
  else if c.toNat < 32 then
    ['\\', 'u', '0', '0', hexChar (c.toNat / 16), hexChar (c.toNat % 16)]
  else [c]

/-- JSON.stringify of a string: quoted and escaped. -/
def jsonQuote (s : String) : String :=
  String.mk (('"' :: s.data.flatMap jsonEscapeChar) ++ ['"'])

/-- JSON.stringify of one Message object, keys in declaration order. -/
def stringifyMessage (m : Message) : String :=
  "\x7b\"role\":" ++ jsonQuote m.role.toName ++ ",\"content\":" ++
    jsonQuote m.content ++ "\x7d"

/-- JSON.stringify of the messages array. -/
def stringifyMessages (ms : List Message) : String :=
  "[" ++ String.intercalate "," (ms.map stringifyMessage) ++ "]"

/-- Everything of the stringified cache payload that precedes the
serialized temperature (src/apiService.ts lines 34-39). -/
def payloadPre (ms : List Message) : String :=
  "\x7b\"messages\":" ++ stringifyMessages ms ++ ",\"temperature\":"

/-- Serialized temperature field of the payload: the code replaces an
undefined temperature by null before stringifying
(src/apiService.ts line 36). -/
def tempLit : Option Int → String
  | none => "null"
  | some v => intDecimal v

/-- JSON.stringify of the payload hashed by generateCacheKey. -/
def stringifyPayload (ms : List Message) (t : Option Int) : String :=
  payloadPre ms ++ tempLit t ++ "\x7d"

/-- UTF-16 code units of one character (what charCodeAt traverses). -/
def charUnits (c : Char) : List Nat :=
  let n := c.toNat
  if n < 65536 then [n]
  else [55296 + (n - 65536) / 1024, 56320 + (n - 65536) % 1024]

/-- UTF-16 code units of a string, in order. -/
def utf16Units (s : String) : List Nat := s.data.flatMap charUnits

/-- One step of the rolling hash of generateCacheKey, on unsigned
representatives modulo 2^32. The code computes
hash = ((hash << 5) - hash) + char; hash = hash & hash on 32-bit signed
integers; writing u for the unsigned representative of hash, the shift is
congruent to 32 * u, so the new representative is (31 * u + char) mod 2^32. -/
def hashStep (u : Nat) (c : Nat) : Nat := (31 * u + c) % 4294967296

/-- Rolling hash of a list of code units from a starting state. -/
def hashUnits (u : Nat) (l : List Nat) : Nat := l.foldl hashStep u

/-- Rolling hash of a string from initial state 0
(src/apiService.ts lines 40-45). -/
def jsHash (s : String) : Nat := hashUnits 0 (utf16Units s)

/-- Math.abs of the signed 32-bit integer whose unsigned representative
is u: values below 2^31 are themselves, the rest represent negatives. -/
def int32Abs (u : Nat) : Nat :=
  if u < 2147483648 then u else 4294967296 - u

/-- Base-36 digit character (0-9 then a-z), as Number.toString(36). -/
def base36Char (n : Nat) : Char :=
  if n < 10 then Char.ofNat (48 + n) else Char.ofNat (87 + n)

/-- Base-36 digit characters of a natural number, most significant first,
fuel-driven. -/
def toBase36Aux (fuel : Nat) (n : Nat) : List Char :=
  match fuel with
  | 0 => []
  | fuel + 1 =>
    if n < 36 then [base36Char n]
    else toBase36Aux fuel (n / 36) ++ [base36Char (n % 36)]

/-- Number.prototype.toString(36) of a natural number. -/
def toBase36 (n : Nat) : String := String.mk (toBase36Aux (n + 1) n)

/-- String.prototype.substring(0, k). -/
def jsSubstring0 (s : String) (k : Nat) : String := String.mk (s.data.take k)

/-- Model of generateCacheKey (src/apiService.ts lines 33-47): stringify
the payload of messages and temperature-or-null, run the 32-bit rolling
hash over its code units, take Math.abs, render in base 36 and truncate
to 32 characters. -/
def generateCacheKey (ms : List Message) (t : Option Int) : String :=
  jsSubstring0 (toBase36 (int32Abs (jsHash (stringifyPayload ms t)))) 32

/-- A cache entry (src/types.ts, interface CacheEntry): content and the
timestamp of the write. The content is a JSON value because the untyped
code can store whatever the extraction returned. -/
structure CacheEntry where
  content : Json
  timestamp : Int

/-- The in-memory cache table: fingerprint to entry, unique keys
(src/types.ts, interface PromptCache). -/
abbrev PromptCache := List (String × CacheEntry)

/-- Lookup of a cache key. -/
def cacheFind (cache : PromptCache) (k : String) : Option CacheEntry :=
  match cache with
  | [] => none
  | (k2, e) :: rest => if k2 = k then some e else cacheFind rest k

/-- Insert or fully replace the entry of a key. -/
def cacheInsert (cache : PromptCache) (k : String) (e : CacheEntry) :
    PromptCache :=
  match cache with
  | [] => [(k, e)]
  | (k2, e2) :: rest =>
    if k2 = k then (k2, e) :: rest else (k2, e2) :: cacheInsert rest k e

/-- Model of getCachedResponse (src/apiService.ts lines 49-58): return
the entry content when the entry exists and its timestamp is younger
than 24 hours, null (none) otherwise. -/
def getCachedResponse (cache : PromptCache) (now : Int) (ms : List Message)
    (t : Option Int) : Option Json :=
  let key := generateCacheKey ms t
  match cacheFind cache key with
  | some entry =>
    if now - entry.timestamp < 86400000 then some entry.content else none
  | none => none

/-- Model of setCachedResponse (src/apiService.ts lines 60-67): overwrite
the entry of the fingerprint with the content and the current time. -/
def setCachedResponse (cache : PromptCache) (now : Int) (ms : List Message)
    (t : Option Int) (content : Json) : PromptCache :=
  cacheInsert cache (generateCacheKey ms t) ⟨content, now⟩

/-- Whitespace characters JSON.parse skips. -/
def jsonWs (c : Char) : Bool := c = ' ' || c = '\t' || c = '\n' || c = Char.ofNat 13

/-- Skip leading JSON whitespace. -/
def skipWs : List Char → List Char
  | [] => []
  | c :: cs => if jsonWs c then skipWs cs else c :: cs

/-- Value of one hexadecimal digit character. -/
def hexVal (c : Char) : Option Nat :=
  let n := c.toNat
  if 48 ≤ n ∧ n ≤ 57 then some (n - 48)
  else if 97 ≤ n ∧ n ≤ 102 then some (n - 87)
  else if 65 ≤ n ∧ n ≤ 70 then some (n - 55)
  else none

/-- Value of a four-digit hexadecimal escape. -/
def hex4 (a b c d : Char) : Option Nat :=
  match hexVal a, hexVal b, hexVal c, hexVal d with
  | some x, some y, some z, some w => some (x * 4096 + y * 256 + z * 16 + w)
  | _, _, _, _ => none

/-- Single-character JSON escapes. -/
def escChar (c : Char) : Option Char :=
  if c = '"' then some '"'
  else if c = '\\' then some '\\'
  else if c = '/' then some '/'
  else if c = 'b' then some (Char.ofNat 8)
  else if c = 'f' then some (Char.ofNat 12)
  else if c = 'n' then some '\n'
  else if c = 'r' then some (Char.ofNat 13)
  else if c = 't' then some '\t'
  else none

/-- Whether a code unit is a high surrogate. -/
def isHiSurr (n : Nat) : Bool := 55296 ≤ n && n < 56320

/-- Whether a code unit is a low surrogate. -/
def isLoSurr (n : Nat) : Bool := 56320 ≤ n && n < 57344

/-- Scalar value of a surrogate pair. -/
def surrogateJoin (hi lo : Nat) : Nat :=
  65536 + (hi - 55296) * 1024 + (lo - 56320)

/-- Character of a code point; a lone surrogate, which a Lean string
cannot carry, becomes the replacement character. -/
def codeToChar (n : Nat) : Char :=
  if n < 55296 ∨ (57344 ≤ n ∧ n < 1114112) then Char.ofNat n
  else Char.ofNat 65533

/-- Fuel-driven worker of parseStrBody; every recursive call consumes at
least one character of the input, so fuel one beyond the input length
never runs out. -/
def parseStrBodyAux (fuel : Nat) : List Char → Option (List Char × List Char)
  | [] => none
  | c :: cs =>
    match fuel with
    | 0 => none
    | fuel + 1 =>
      if c = '"' then some ([], cs)
      else if c = '\\' then
        match cs with
        | 'u' :: a :: b :: c2 :: d :: rest =>
          match hex4 a b c2 d with
          | none => none
          | some n =>
            if isHiSurr n then
              match rest with
              | '\\' :: 'u' :: e :: f :: g :: h :: rest2 =>
                match hex4 e f g h with
                | some m =>
                  if isLoSurr m then
                    (parseStrBodyAux fuel rest2).map
                      (fun p => (codeToChar (surrogateJoin n m) :: p.1, p.2))
                  else
                    (parseStrBodyAux fuel
                        ('\\' :: 'u' :: e :: f :: g :: h :: rest2)).map
                      (fun p => (codeToChar n :: p.1, p.2))
                | none =>
                  (parseStrBodyAux fuel
                      ('\\' :: 'u' :: e :: f :: g :: h :: rest2)).map
                    (fun p => (codeToChar n :: p.1, p.2))
              | _ =>
                (parseStrBodyAux fuel rest).map
                  (fun p => (codeToChar n :: p.1, p.2))
            else
              (parseStrBodyAux fuel rest).map
                (fun p => (codeToChar n :: p.1, p.2))
        | e :: rest =>
          match escChar e with
          | some ch => (parseStrBodyAux fuel rest).map (fun p => (ch :: p.1, p.2))
          | none => none
        | [] => none
      else if c.toNat < 32 then none
      else (parseStrBodyAux fuel cs).map (fun p => (c :: p.1, p.2))

/-- Body of a JSON string after the opening quote: the decoded
characters and the rest after the closing quote. Unescaped control
characters are rejected as JSON.parse rejects them; a \\uXXXX high
surrogate immediately followed by an escaped low surrogate forms one
code point. -/
def parseStrBody (cs : List Char) : Option (List Char × List Char) :=
  parseStrBodyAux (cs.length + 1) cs

/-- Numeric value of a digit run. -/
def digitsVal (l : List Char) : Nat :=
  l.foldl (fun a c => a * 10 + (c.toNat - 48)) 0

/-- A JSON numeric literal from the head of the input: optional minus,
integer part without leading zeros, optional fraction, optional
exponent; its exact rational value and the rest of the input. -/
def parseNum (cs : List Char) : Option (Rat × List Char) :=
  let signed : Bool × List Char :=
    match cs with
    | '-' :: rest => (true, rest)
    | _ => (false, cs)
  let neg := signed.1
  let cs1 := signed.2
  let ipSplit := cs1.span Char.isDigit
  let ip := ipSplit.1
  let cs2 := ipSplit.2
  if ip = [] then none
  else if 1 < ip.length ∧ ip.head? = some '0' then none
  else
    let fracSplit : Option (List Char × List Char) :=
      match cs2 with
      | '.' :: cs3 =>
        let s := cs3.span Char.isDigit
        if s.1 = [] then none else some (s.1, s.2)
      | _ => some ([], cs2)
    match fracSplit with
    | none => none
    | some (fp, cs4) =>
      let expSplit : Option (Int × List Char) :=
        match cs4 with
        | 'e' :: cs5 =>
          match cs5 with
          | '+' :: cs6 =>
            let s := cs6.span Char.isDigit
            if s.1 = [] then none else some ((digitsVal s.1 : Int), s.2)
          | '-' :: cs6 =>
            let s := cs6.span Char.isDigit
            if s.1 = [] then none else some (-(digitsVal s.1 : Int), s.2)
          | _ =>
            let s := cs5.span Char.isDigit
            if s.1 = [] then none else some ((digitsVal s.1 : Int), s.2)
        | 'E' :: cs5 =>
          match cs5 with
          | '+' :: cs6 =>
            let s := cs6.span Char.isDigit
            if s.1 = [] then none else some ((digitsVal s.1 : Int), s.2)
          | '-' :: cs6 =>
            let s := cs6.span Char.isDigit
            if s.1 = [] then none else some (-(digitsVal s.1 : Int), s.2)
          | _ =>
            let s := cs5.span Char.isDigit
            if s.1 = [] then none else some ((digitsVal s.1 : Int), s.2)
        | _ => some (0, cs4)
      match expSplit with
      | none => none
      | some (ex, cs6) =>
        let base : Nat := digitsVal ip * 10 ^ fp.length + digitsVal fp
        let signedBase : Int := if neg then -(base : Int) else (base : Int)
        let shift : Int := ex - fp.length
        let q : Rat :=
          if 0 ≤ shift then mkRat (signedBase * 10 ^ shift.toNat) 1
          else mkRat signedBase (10 ^ (-shift).toNat)
        some (q, cs6)

/-- Opening brace character. -/
def lbraceC : Char := Char.ofNat 123

/-- Closing brace character. -/
def rbraceC : Char := Char.ofNat 125

/-- What the fuel-driven JSON parser is currently reading: a value, the
elements of an array, or the fields of an object. -/
inductive PMode where
  | val
  | elems (acc : List Json)
  | fields (acc : List (String × Json))

/-- Recursive core of JSON.parse, structural on the fuel so that the
kernel can evaluate it; duplicate object keys overwrite in place as
JavaScript property assignment does. -/
def parseRun (fuel : Nat) (mode : PMode) (cs : List Char) :
    Option (Json × List Char) :=
  match fuel with
  | 0 => none
  | fuel + 1 =>
    match mode with
    | .val =>
      match skipWs cs with
      | 'n' :: 'u' :: 'l' :: 'l' :: rest => some (.null, rest)
      | 't' :: 'r' :: 'u' :: 'e' :: rest => some (.bool true, rest)
      | 'f' :: 'a' :: 'l' :: 's' :: 'e' :: rest => some (.bool false, rest)
      | '"' :: rest =>
        (parseStrBody rest).map (fun p => (.str (String.mk p.1), p.2))
      | '[' :: rest =>
        match skipWs rest with
        | ']' :: rest2 => some (.arr [], rest2)
        | _ => parseRun fuel (.elems []) rest
      | c :: rest =>
        if c = lbraceC then
          let r := skipWs rest
          if r.head? = some rbraceC then some (.obj [], r.tail)
          else parseRun fuel (.fields []) rest
        else if c = '-' ∨ c.isDigit then
          (parseNum (c :: rest)).map (fun p => (.num p.1, p.2))
        else none
      | [] => none
    | .elems acc =>
      match parseRun fuel .val cs with
      | none => none
      | some (v, rest) =>
        match skipWs rest with
        | ',' :: rest2 => parseRun fuel (.elems (acc ++ [v])) rest2
        | ']' :: rest2 => some (.arr (acc ++ [v]), rest2)
        | _ => none
    | .fields acc =>
      match skipWs cs with
      | '"' :: rest =>
        match parseStrBody rest with
        | none => none
        | some (kcs, rest2) =>
          match skipWs rest2 with
          | ':' :: rest3 =>
            match parseRun fuel .val rest3 with
            | none => none
            | some (v, rest4) =>
              let acc2 := jinsert acc (String.mk kcs) v
              match skipWs rest4 with
              | ',' :: rest5 => parseRun fuel (.fields acc2) rest5
              | c :: rest5 =>
                if c = rbraceC then some (.obj acc2, rest5) else none
              | [] => none
          | _ => none
      | _ => none

/-- Model of JSON.parse over the code characters of the input: a value
followed only by whitespace, rejected otherwise. -/
def jsonParse (cs : List Char) : Option Json :=
  match parseRun (2 * cs.length + 2) .val cs with
  | some (v, rest) => if skipWs rest = [] then some v else none
  | none => none

/-- Property access on a JSON value that is not nullish: a field of an
object, undefined (none) otherwise. -/
def jsObjField (j : Json) (k : String) : Option Json :=
  match j with
  | .obj fs => jget fs k
  | _ => none

/-- Indexing a JSON value with 0 as JavaScript does: first element of an
array, field "0" of an object, first code unit of a string as a
one-character string, undefined otherwise. -/
def jsIndex0 : Json → Option Json
  | .arr l => l.head?
  | .obj fs => jget fs "0"
  | .str s =>
    match s.data with
    | [] => none
    | c :: _ => some (.str (String.mk [c]))
  | _ => none

/-- The chain choices[0]?.message?.content applied after the first
choice lookup: used by the atomic extraction; optional chaining turns a
nullish left side into undefined. -/
def choiceMessageContent (e0 : Option Json) : Option Json :=
  let m : Option Json :=
    match e0 with
    | none => none
    | some .null => none
    | some v => jsObjField v "message"
  match m with
  | none => none
  | some .null => none
  | some v => jsObjField v "content"

/-- Model of the atomic extraction data.choices[0]?.message?.content || ''
(src/apiService.ts line 113). The error value models a thrown TypeError:
accessing .choices on null throws, and indexing [0] on an undefined or
null choices throws, because no optional chaining guards those two
accesses; afterwards the optional chain turns missing pieces into
undefined and the || turns every falsy result into the empty string. -/
def extractAtomicContent (data : Json) : Except Unit Json :=
  match data with
  | .null => .error ()
  | _ =>
    match jsObjField data "choices" with
    | none => .error ()
    | some .null => .error ()
    | some c =>
      .ok
        (match choiceMessageContent (jsIndex0 c) with
         | some v => if jsTruthy v then v else .str ""
         | none => .str "")

/-- What the network would answer an atomic completion request with:
a non-2xx status with its body text, an abort of the in-flight request,
a 2xx response whose body is not JSON, or a 2xx JSON body. -/
inductive AtomicNet where
  | httpError (status : Nat) (body : String)
  | aborted
  | invalidJson
  | ok (body : Json)

/-- Outcome of chatCompletion: the returned content, or one of the three
kinds of error the client surfaces (HTTP error with status and body,
the distinct cancellation error, the generic wrapped failure). -/
inductive AtomicOutcome where
  | ok (v : Json)
  | httpError (status : Nat) (body : String)
  | cancelled
  | failed

/-- Result of an atomic completion call: outcome, cache afterwards, and
whether the network was contacted. -/
structure AtomicResult where
  outcome : AtomicOutcome
  cache : PromptCache
  networkCalled : Bool

/-- Network part of chatCompletion (src/apiService.ts lines 82-130),
reached when the cache check fell through: an abort surfaces as the
distinct cancellation error, a non-2xx status as an HTTP error, an
extraction TypeError as the generic failure, and a successful extraction
is written to the cache before being returned. -/
def chatCompletionNet (cache : PromptCache) (now : Int) (ms : List Message)
    (t : Option Int) : AtomicNet → AtomicResult
  | .aborted => ⟨.cancelled, cache, true⟩
  | .httpError s b => ⟨.httpError s b, cache, true⟩
  | .invalidJson => ⟨.failed, cache, true⟩
  | .ok body =>
    match extractAtomicContent body with
    | .error _ => ⟨.failed, cache, true⟩
    | .ok v => ⟨.ok v, setCachedResponse cache now ms t v, true⟩

/-- Model of chatCompletion (src/apiService.ts lines 69-131): the cached
response is returned, without touching the network or the cache, exactly
when getCachedResponse produced a truthy value, because the code guards
the early return with if (cached); otherwise the network call proceeds. -/
def chatCompletion (cache : PromptCache) (now : Int) (ms : List Message)
    (t : Option Int) (net : AtomicNet) : AtomicResult :=
  match getCachedResponse cache now ms t with
  | some v =>
    if jsTruthy v then ⟨.ok v, cache, false⟩
    else chatCompletionNet cache now ms t net
  | none => chatCompletionNet cache now ms t net

/-- One reader.read() of the streaming response body: a decoded text
chunk, a rejection with AbortError after a cancellation, or a rejection
with any other error; the stream reports done when the list of events is
exhausted. -/
inductive ReadEvent where
  | chunk (s : String)
  | abortError
  | netError

/-- Mutable state of the streaming loop
(src/apiService.ts lines 184-223): the carry-over buffer holding the
text after the last newline seen so far, the accumulated full content,
and the values delivered so far through yield and through the onChunk
callback, in order. -/
structure StreamState where
  buffer : List Char
  fullContent : String
  yields : List Json
  callbacks : List Json

/-- The initial streaming state: empty buffer and accumulator, nothing
delivered. -/
def initStreamState : StreamState := ⟨[], "", [], []⟩

/-- The line marker of a server-sent data event. -/
def dataMarker : List Char := ("data: ").data

/-- The end-of-stream sentinel payload. -/
def doneLit : List Char := ("[DONE]").data

/-- Model of parsed.choices?.[0]?.delta?.content
(src/apiService.ts line 209). Here the optional chain starts right after
.choices, so only accessing .choices on a parsed null throws; that
TypeError is caught and ignored by the surrounding try, which the none
result also models. -/
def extractDeltaContent (parsed : Json) : Option Json :=
  match parsed with
  | .null => none
  | _ =>
    match jsObjField parsed "choices" with
    | none => none
    | some .null => none
    | some c =>
      match jsIndex0 c with
      | none => none
      | some .null => none
      | some e =>
        match jsObjField e "delta" with
        | none => none
        | some .null => none
        | some d => jsObjField d "content"

/-- JavaScript String.prototype.split on the newline character: never
empty, keeps empty pieces. -/
def jsSplitNL : List Char → List (List Char)
  | [] => [[]]
  | c :: cs =>
    if c = '\n' then [] :: jsSplitNL cs
    else
      match jsSplitNL cs with
      | [] => [[c]]
      | l :: ls => (c :: l) :: ls

/-- Processing of one complete line (src/apiService.ts lines 197-221):
only lines with the data marker matter; the sentinel returns early
(modelled by the error side, carrying the state at the return), a line
whose payload fails to parse or holds no truthy content delta is
skipped, and a truthy delta is appended to the accumulator, handed to
the callback and yielded. -/
def processLine (st : StreamState) (line : List Char) :
    Except StreamState StreamState :=
  if dataMarker.isPrefixOf line then
    if line.drop 6 = doneLit then .error st
    else
      match jsonParse (line.drop 6) with
      | none => .ok st
      | some parsed =>
        match extractDeltaContent parsed with
        | some v =>
          if jsTruthy v then
            .ok { st with
                  fullContent := st.fullContent ++ jsToString v,
                  yields := st.yields ++ [v],
                  callbacks := st.callbacks ++ [v] }
          else .ok st
        | none => .ok st
  else .ok st

/-- Processing of the complete lines decoded from one read, stopping at
the sentinel. -/
def processLines (st : StreamState) : List (List Char) →
    Except StreamState StreamState
  | [] => .ok st
  | l :: ls =>
    match processLine st l with
    | .error st2 => .error st2
    | .ok st2 => processLines st2 ls

/-- How the streaming read loop ended: the reader reported done without a
sentinel, the sentinel line returned early, a read rejected with
AbortError, or a read rejected with another error. -/
inductive RunEnd where
  | ended (st : StreamState)
  | doneHit (st : StreamState)
  | aborted (st : StreamState)
  | readFailed (st : StreamState)

/-- The streaming read loop (src/apiService.ts lines 188-223): per read,
append the chunk to the carry-over buffer, split on newlines, keep the
last piece as the new buffer, and process the complete lines in order. -/
def runReads (st : StreamState) : List ReadEvent → RunEnd
  | [] => .ended st
  | .abortError :: _ => .aborted st
  | .netError :: _ => .readFailed st
  | .chunk s :: rest =>
    let pieces := jsSplitNL (st.buffer ++ s.data)
    let st2 : StreamState := { st with buffer := (pieces.getLast?).getD [] }
    match processLines st2 pieces.dropLast with
    | .error st3 => .doneHit st3
    | .ok st3 => runReads st3 rest

/-- Outcome of chatCompletionStream: the full accumulated text returned
as the terminal value, or one of the surfaced errors, with cancellation
distinct from the generic failure. -/
inductive StreamOutcome where
  | success (full : String)
  | httpError (status : Nat) (body : String)
  | cancelled
  | failed

/-- Result of a streaming completion call: outcome, every value yielded
by the generator in order, every value passed to the onChunk callback in
order, the cache afterwards, and whether the network was contacted. -/
structure StreamResult where
  outcome : StreamOutcome
  yields : List Json
  callbacks : List Json
  cache : PromptCache
  networkCalled : Bool

/-- Model of chatCompletionStream (src/apiService.ts lines 133-244). The
fetch is issued before anything reads or writes the cache, so the
network is contacted on every call; a non-2xx status surfaces as an HTTP
error; the read loop then consumes the body, and the accumulated content
is written to the cache exactly on the two success paths, the sentinel
return (line 203) and the loop ending on done (line 229). An AbortError
rejection surfaces as the distinct cancellation error and any other
rejection as the generic failure, both leaving the cache untouched. -/
def chatCompletionStream (cache : PromptCache) (now : Int)
    (ms : List Message) (t : Option Int) (ok : Bool) (status : Nat)
    (errBody : String) (reads : List ReadEvent) : StreamResult :=
  if ok then
    match runReads initStreamState reads with
    | .ended st =>
      ⟨.success st.fullContent, st.yields, st.callbacks,
        setCachedResponse cache now ms t (.str st.fullContent), true⟩
    | .doneHit st =>
      ⟨.success st.fullContent, st.yields, st.callbacks,
        setCachedResponse cache now ms t (.str st.fullContent), true⟩
    | .aborted st => ⟨.cancelled, st.yields, st.callbacks, cache, true⟩
    | .readFailed st => ⟨.failed, st.yields, st.callbacks, cache, true⟩
  else ⟨.httpError status errBody, [], [], cache, true⟩

/-- What reading the persisted blob at construction can do: throw, or
produce the stored string if any (null when the key is absent). -/
inductive StorageRead where
  | throws
  | value (stored : Option String)

/-- Model of loadCache (src/apiService.ts lines 13-23): the cache field
starts as the empty table; a thrown read or parse error falls back to
the empty table, a falsy stored value (absent key or empty string)
leaves the initial empty table, and a successfully parsed blob is
installed as-is, whatever its structure. -/
def loadCache (r : StorageRead) : Json :=
  match r with
  | .throws => .obj []
  | .value none => .obj []
  | .value (some s) =>
    if s = "" then .obj []
    else
      match jsonParse s.data with
      | none => .obj []
      | some j => j

/-- Object.keys of a JSON value: throws (none) on null, fields of an
object, index strings of an array, code-unit index strings of a string,
empty for the other primitives. -/
def jsObjectKeys (j : Json) : Option (List String) :=
  match j with
  | .null => none
  | .obj fs => some (fs.map Prod.fst)
  | .arr l => some ((List.range l.length).map natDecimal)
  | .str s => some ((List.range (utf16Units s).length).map natDecimal)
  | .bool _ => some []
  | .num _ => some []

/-- Model of getCacheSize (src/apiService.ts lines 251-253) applied to
the cache value installed at construction: Object.keys(...).length,
none modelling a thrown TypeError. -/
def getCacheSizeLoaded (cache : Json) : Option Nat :=
  (jsObjectKeys cache).map List.length

/-- A full completion request as the orchestrator receives it
(src/types.ts, interface StoryConfig supplies the non-message fields). -/
structure CompletionCall where
  messages : List Message
  model : String
  temperature : Option Int
  apiKey : String
  baseUrl : String
  stream : Bool

/-- The fingerprint a call caches under: chatCompletion and
chatCompletionStream pass exactly messages and temperature to
generateCacheKey (src/apiService.ts lines 50, 61); model, apiKey,
baseUrl and stream are never part of the key. -/
def callFingerprint (c : CompletionCall) : String :=
  generateCacheKey c.messages c.temperature

/-- Concatenation of the string conversions of the delivered values, the
way fullContent accumulates them. -/
def concatJs (l : List Json) : String :=
  (l.map jsToString).foldl (fun a b => a ++ b) ""

/-- The stream state carried by either side of the line processor. -/
def exceptState : Except StreamState StreamState → StreamState
  | .ok st => st
  | .error st => st

/-- The stream state carried by a finished read loop. -/
def runEndState : RunEnd → StreamState
  | .ended st => st
  | .doneHit st => st
  | .aborted st => st
  | .readFailed st => st

/-- Bookkeeping invariant of the streaming loop: the callback received
exactly the yielded values in order, the accumulator is the
concatenation of their string conversions, and only truthy values were
delivered. -/
def deliveredConsistent (st : StreamState) : Prop :=
  st.callbacks = st.yields ∧ st.fullContent = concatJs st.yields ∧
    ∀ v ∈ st.yields, jsTruthy v = true

/-- A one-message conversation used by the concrete witnesses. -/
def msW : List Message := [⟨.user, "a"⟩]

/-- A well-formed streaming chunk carrying the delta "Hi". -/
def chunkHi : String :=
  "data: \x7b\"choices\":[\x7b\"delta\":\x7b\"content\":\"Hi\"\x7d\x7d]\x7d\n"

/-- First half of a data line split mid-line across two reads. -/
def chunkSplitA : String := "\ndata: \x7b\"choices\":[\x7b\"del"

/-- Second half of the split line, followed by the sentinel. -/
def chunkSplitB : String :=
  "ta\":\x7b\"content\":\" there\"\x7d\x7d]\x7d\n\ndata: [DONE]\n\n"

/-- A streaming chunk whose decoded content delta is the empty string. -/
def chunkEmptyDelta : String :=
  "data: \x7b\"choices\":[\x7b\"delta\":\x7b\"content\":\"\"\x7d\x7d]\x7d\n"

/-- The JSON payload of chunkEmptyDelta. -/
def emptyDeltaJson : Json :=
  .obj [("choices", .arr [.obj [("delta", .obj [("content", .str "")])]])]

/-- A 2xx atomic body with one choice carrying the content "Hello". -/
def bodyHello : Json :=
  .obj [("choices", .arr [.obj [("message", .obj [("content", .str "Hello")])]])]

/-- A 2xx atomic body with no choices field at all. -/
def bodyNoChoices : Json := .obj []

/-- A 2xx atomic body with an empty choices array. -/
def bodyEmptyChoices : Json := .obj [("choices", .arr [])]

/-- A 2xx atomic body whose first choice has no message field. -/
def bodyBareChoice : Json := .obj [("choices", .arr [.obj []])]

/-- Whether a complete line is the end-of-stream sentinel line: it
carries the data marker and its payload is the [DONE] literal. -/
def isDoneLine (l : List Char) : Prop :=
  dataMarker.isPrefixOf l = true ∧ l.drop 6 = doneLit

instance isDoneLineDec (l : List Char) : Decidable (isDoneLine l) :=
  inferInstanceAs (Decidable (_ ∧ _))

/-- The lines the loop consumes: everything strictly before the first
sentinel line. -/
def untilDone : List (List Char) → List (List Char)
  | [] => []
  | l :: ls => if isDoneLine l then [] else l :: untilDone ls

/-- Reference decoder for one complete line, defined directly from the
wire protocol of section 6: the truthy content delta a data line
carries, none for the sentinel, for unparseable payloads, for payloads
without a truthy delta and for lines without the marker. -/
def lineDelta (line : List Char) : Option Json :=
  if dataMarker.isPrefixOf line then
    if line.drop 6 = doneLit then none
    else
      match jsonParse (line.drop 6) with
      | none => none
      | some parsed =>
        match extractDeltaContent parsed with
        | some v => if jsTruthy v then some v else none
        | none => none
  else none

/-- The complete lines the byte stream decodes to, in order: each chunk
is appended to the carry-over buffer, split on newlines, and the last
piece is carried over; reading stops at an aborted or failed read. -/
def streamLines (buffer : List Char) : List ReadEvent → List (List Char)
  | [] => []
  | .abortError :: _ => []
  | .netError :: _ => []
  | .chunk s :: rest =>
    (jsSplitNL (buffer ++ s.data)).dropLast ++
      streamLines (((jsSplitNL (buffer ++ s.data)).getLast?).getD []) rest

/-- The truthy content deltas the stream decodes before the sentinel,
in stream order: the reference against which the delivery of the
generator, the callback and the accumulator is verified. -/
def streamDeltas (buffer : List Char) (reads : List ReadEvent) : List Json :=
  (untilDone (streamLines buffer reads)).filterMap lineDelta

theorem utf16Units_append (a b : String) :
    utf16Units (a ++ b) = utf16Units a ++ utf16Units b := by
  unfold utf16Units
  rw [String.data_append, List.flatMap_append]

theorem hashUnits_append (u : Nat) (l1 l2 : List Nat) :
    hashUnits u (l1 ++ l2) = hashUnits (hashUnits u l1) l2 :=
  List.foldl_append hashStep u l1 l2

theorem hashUnits_lt (u : Nat) (l : List Nat) (h : u < 4294967296) :
    hashUnits u l < 4294967296 := by
  induction l generalizing u with
  | nil => exact h
  | cons c rest ih => exact ih (hashStep u c) (Nat.mod_lt _ (by norm_num))

theorem jsHash_lt (s : String) : jsHash s < 4294967296 :=
  hashUnits_lt 0 _ (by norm_num)

theorem int32Abs_le (u : Nat) (h : u < 4294967296) :
    int32Abs u ≤ 2147483648 := by
  unfold int32Abs; split <;> omega

theorem int32Abs_parity (u : Nat) (h : u < 4294967296) :
    int32Abs u % 2 = u % 2 := by
  unfold int32Abs; split <;> omega

theorem hash_parity_null (u : Nat) :
    hashUnits (hashUnits u [110, 117, 108, 108]) [125] % 2 = u % 2 := by
  simp only [hashUnits, List.foldl, hashStep]
  omega

theorem hash_parity_zero (u : Nat) :
    hashUnits (hashUnits u [48]) [125] % 2 = (u + 1) % 2 := by
  simp only [hashUnits, List.foldl, hashStep]
  omega

theorem jsHash_payload_none (ms : List Message) :
    jsHash (stringifyPayload ms none) % 2 = jsHash (payloadPre ms) % 2 := by
  have h : stringifyPayload ms none = (payloadPre ms ++ "null") ++ "\x7d" := rfl
  rw [h]
  unfold jsHash
  rw [utf16Units_append, utf16Units_append, hashUnits_append, hashUnits_append]
  have h2 : utf16Units "null" = [110, 117, 108, 108] := rfl
  have h3 : utf16Units "\x7d" = [125] := rfl
  rw [h2, h3]
  exact hash_parity_null _

theorem jsHash_payload_zero (ms : List Message) :
    jsHash (stringifyPayload ms (some 0)) % 2 =
      (jsHash (payloadPre ms) + 1) % 2 := by
  have h : stringifyPayload ms (some 0) = (payloadPre ms ++ "0") ++ "\x7d" := rfl
  rw [h]
  unfold jsHash
  rw [utf16Units_append, utf16Units_append, hashUnits_append, hashUnits_append]
  have h2 : utf16Units "0" = [48] := rfl
  have h3 : utf16Units "\x7d" = [125] := rfl
  rw [h2, h3]
  exact hash_parity_zero _

theorem toBase36Aux_getLast (fuel n : Nat) (h : 0 < fuel) :
    (toBase36Aux fuel n).getLast? = some (base36Char (n % 36)) := by
  cases fuel with
  | zero => omega
  | succ fuel =>
    unfold toBase36Aux
    split
    · rename_i h36
      simp [Nat.mod_eq_of_lt h36]
    · exact List.getLast?_concat _

theorem toBase36Aux_length (fuel : Nat) : ∀ n k : Nat, n < fuel → n < 36 ^ k →
    1 ≤ k → (toBase36Aux fuel n).length ≤ k := by
  induction fuel with
  | zero => omega
  | succ fuel ih =>
    intro n k hf hk h1
    unfold toBase36Aux
    split
    · simpa using h1
    · rename_i h36
      push_neg at h36
      have hk2 : 2 ≤ k := by
        by_contra h2
        have hk1 : k = 1 := by omega
        subst hk1
        rw [pow_one] at hk
        omega
      have hdiv : n / 36 < 36 ^ (k - 1) := by
        have hp : 36 ^ k = 36 ^ (k - 1) * 36 := by
          rw [← pow_succ]
          congr 1
          omega
        rw [hp] at hk
        exact (Nat.div_lt_iff_lt_mul (by norm_num)).mpr hk
      have hfu : n / 36 < fuel := by
        have := Nat.div_lt_self (show 0 < n by omega) (show 1 < 36 by norm_num)
        omega
      have hlen := ih (n / 36) (k - 1) hfu hdiv (by omega)
      rw [List.length_append]
      simp only [List.length_singleton]
      omega

theorem base36Char_inj (a b : Nat) (ha : a < 36) (hb : b < 36)
    (h : base36Char a = base36Char b) : a = b := by
  have key : ∀ x y : Fin 36, base36Char x.val = base36Char y.val → x = y := by
    decide
  have := key ⟨a, ha⟩ ⟨b, hb⟩ h
  exact congrArg Fin.val this

/-- C4 (amended, universal part): for every message list, the cache key
with temperature absent differs from the cache key with temperature 0.
The serialized payloads share every character up to the temperature
literal and end in null-brace respectively zero-brace, whose rolling
hashes always have opposite parities; parity survives Math.abs and the
final base-36 digit, so the key strings differ. -/
theorem generateCacheKey_absent_ne_zero (ms : List Message) :
    generateCacheKey ms none ≠ generateCacheKey ms (some 0) := by
  intro heq
  unfold generateCacheKey jsSubstring0 toBase36 at heq
  have hdata := congrArg String.data heq
  simp only [String.data] at hdata
  set a1 := int32Abs (jsHash (stringifyPayload ms none)) with ha1
  set a2 := int32Abs (jsHash (stringifyPayload ms (some 0))) with ha2
  have hb : (2147483648 : Nat) < 36 ^ 7 := by norm_num
  have hl1 : (toBase36Aux (a1 + 1) a1).length ≤ 7 :=
    toBase36Aux_length (a1 + 1) a1 7 (by omega)
      (by have := int32Abs_le _ (jsHash_lt (stringifyPayload ms none)); omega)
      (by omega)
  have hl2 : (toBase36Aux (a2 + 1) a2).length ≤ 7 :=
    toBase36Aux_length (a2 + 1) a2 7 (by omega)
      (by have := int32Abs_le _ (jsHash_lt (stringifyPayload ms (some 0))); omega)
      (by omega)
  rw [List.take_of_length_le (by omega), List.take_of_length_le (by omega)]
    at hdata
  have hlast := congrArg List.getLast? hdata
  rw [toBase36Aux_getLast _ _ (by omega), toBase36Aux_getLast _ _ (by omega)]
    at hlast
  have hchar := Option.some.inj hlast
  have hmod : a1 % 36 = a2 % 36 :=
    base36Char_inj _ _ (Nat.mod_lt _ (by norm_num)) (Nat.mod_lt _ (by norm_num))
      hchar
  have hpar : a1 % 2 = a2 % 2 := by
    have := congrArg (fun x => x % 2) hmod
    simpa [Nat.mod_mod_of_dvd _ (by norm_num : (2 : Nat) ∣ 36)] using this
  have p1 : a1 % 2 = jsHash (payloadPre ms) % 2 := by
    rw [ha1, int32Abs_parity _ (jsHash_lt _)]
    exact jsHash_payload_none ms
  have p2 : a2 % 2 = (jsHash (payloadPre ms) + 1) % 2 := by
    rw [ha2, int32Abs_parity _ (jsHash_lt _)]
    exact jsHash_payload_zero ms
  omega

set_option maxRecDepth 100000 in
/-- C4 (counterexample): the claim that the absent-temperature key and
the zero-temperature key differ from the key of every other present
temperature fails: for the one-message conversation msW, the 32-bit
rolling hash collides and the nonzero temperature 100059402428 produces
exactly the absent-temperature key. -/
theorem generateCacheKey_collision :
    (100059402428 : Int) ≠ 0 ∧
      generateCacheKey msW (some 100059402428) = generateCacheKey msW none := by
  constructor
  · decide
  · rfl

/-- C3: the fingerprint is deterministic: deep-equal message lists and
temperatures give the identical key on every call, since
generateCacheKey is a pure function of its two arguments. -/
theorem generateCacheKey_deterministic (ms1 ms2 : List Message)
    (t1 t2 : Option Int) (h1 : ms1 = ms2) (h2 : t1 = t2) :
    generateCacheKey ms1 t1 = generateCacheKey ms2 t2 := by
  subst h1
  subst h2
  rfl

/-- Witness for C3 at a concrete input. -/
theorem generateCacheKey_deterministic_witness :
    generateCacheKey msW (some 1) = generateCacheKey msW (some 1) :=
  generateCacheKey_deterministic msW msW (some 1) (some 1) rfl rfl

/-- C5: noninterference of the non-semantic request fields: two calls
with deep-equal messages and temperature have the same fingerprint
whatever their model, apiKey, baseUrl and stream flag are, because the
code passes only messages and temperature to generateCacheKey. -/
theorem callFingerprint_ignores_provider (c1 c2 : CompletionCall)
    (hm : c1.messages = c2.messages) (ht : c1.temperature = c2.temperature) :
    callFingerprint c1 = callFingerprint c2 := by
  unfold callFingerprint
  rw [hm, ht]

/-- Witness for C5: two calls differing in model, apiKey, baseUrl and
stream flag share the fingerprint. -/
theorem callFingerprint_ignores_provider_witness :
    callFingerprint
        ⟨msW, "gpt-4", some 1, "key-one", "https://api.openai.com/v1", false⟩ =
      callFingerprint
        ⟨msW, "other-model", some 1, "key-two", "https://openrouter.ai/api/v1",
          true⟩ :=
  callFingerprint_ignores_provider _ _ rfl rfl

theorem chatCompletion_hit (cache : PromptCache) (now : Int)
    (ms : List Message) (t : Option Int) (net : AtomicNet) (v : Json)
    (hv : getCachedResponse cache now ms t = some v)
    (ht : jsTruthy v = true) :
    chatCompletion cache now ms t net = ⟨.ok v, cache, false⟩ := by
  unfold chatCompletion
  rw [hv]
  simp [ht]

theorem chatCompletion_miss (cache : PromptCache) (now : Int)
    (ms : List Message) (t : Option Int) (net : AtomicNet)
    (h : getCachedResponse cache now ms t = none) :
    chatCompletion cache now ms t net = chatCompletionNet cache now ms t net := by
  unfold chatCompletion
  rw [h]

theorem chatCompletionNet_ok (cache : PromptCache) (now : Int)
    (ms : List Message) (t : Option Int) (body v : Json)
    (he : extractAtomicContent body = .ok v) :
    chatCompletionNet cache now ms t (.ok body) =
      ⟨.ok v, setCachedResponse cache now ms t v, true⟩ := by
  simp only [chatCompletionNet]
  rw [he]

theorem chatCompletionNet_network (cache : PromptCache) (now : Int)
    (ms : List Message) (t : Option Int) (net : AtomicNet) :
    (chatCompletionNet cache now ms t net).networkCalled = true := by
  cases net with
  | aborted => rfl
  | httpError s b => rfl
  | invalidJson => rfl
  | ok body =>
    simp only [chatCompletionNet]
    cases extractAtomicContent body <;> rfl

/-- C1 (amended): a fresh cache entry is honored only when its content
is truthy: then chatCompletion returns exactly the cached content,
contacts no network and writes nothing. In every other case — the entry
absent, 24 hours old or older, or present and fresh but with falsy
content such as the empty string — chatCompletion performs the network
call, and on a successful extraction returns the extracted content and
overwrites the entry of that fingerprint. The amendment restricts the
hit branch to truthy content, which the counterexample with an empty
cached string forces. -/
theorem chatCompletion_cache_contract (cache : PromptCache) (now : Int)
    (ms : List Message) (t : Option Int) (net : AtomicNet) :
    (∀ v, getCachedResponse cache now ms t = some v → jsTruthy v = true →
      chatCompletion cache now ms t net = ⟨.ok v, cache, false⟩) ∧
    ((getCachedResponse cache now ms t = none ∨
        ∃ v, getCachedResponse cache now ms t = some v ∧ jsTruthy v = false) →
      (chatCompletion cache now ms t net).networkCalled = true ∧
        ∀ body v, net = .ok body → extractAtomicContent body = .ok v →
          (chatCompletion cache now ms t net).outcome = .ok v ∧
          (chatCompletion cache now ms t net).cache =
            setCachedResponse cache now ms t v) := by
  constructor
  · intro v hv ht
    exact chatCompletion_hit cache now ms t net v hv ht
  · intro h
    have hnet : chatCompletion cache now ms t net =
        chatCompletionNet cache now ms t net := by
      rcases h with h | ⟨v, hv, ht⟩
      · exact chatCompletion_miss cache now ms t net h
      · unfold chatCompletion
        rw [hv]
        simp [ht]
    rw [hnet]
    constructor
    · exact chatCompletionNet_network cache now ms t net
    · intro body v hb he
      subst hb
      rw [chatCompletionNet_ok cache now ms t body v he]
      exact ⟨rfl, rfl⟩

set_option maxRecDepth 1000000 in
/-- Witness for C1 at concrete inputs: a fresh truthy entry is returned
without network call or cache write; a fresh entry with empty-string
content leads to a network call whose extracted content is returned and
overwrites the entry; an absent entry leads to a network call. -/
theorem chatCompletion_cache_contract_witness :
    chatCompletion [(generateCacheKey msW none, ⟨.str "cached", 0⟩)] 100 msW
        none (.ok bodyHello) =
      ⟨.ok (.str "cached"), [(generateCacheKey msW none, ⟨.str "cached", 0⟩)],
        false⟩ ∧
    (chatCompletion [(generateCacheKey msW none, ⟨.str "", 0⟩)] 100 msW none
        (.ok bodyHello)).outcome = .ok (.str "Hello") ∧
    (chatCompletion [(generateCacheKey msW none, ⟨.str "", 0⟩)] 100 msW none
        (.ok bodyHello)).cache =
      setCachedResponse [(generateCacheKey msW none, ⟨.str "", 0⟩)] 100 msW
        none (.str "Hello") ∧
    (chatCompletion [] 0 msW none (.ok bodyHello)).networkCalled = true := by
  refine ⟨?_, ?_, ?_, ?_⟩
  · exact (chatCompletion_cache_contract _ 100 msW none _).1 (.str "cached")
      rfl rfl
  · exact (((chatCompletion_cache_contract
      [(generateCacheKey msW none, ⟨.str "", 0⟩)] 100 msW none _).2
      (.inr ⟨.str "", rfl, rfl⟩)).2 bodyHello (.str "Hello") rfl rfl).1
  · exact (((chatCompletion_cache_contract
      [(generateCacheKey msW none, ⟨.str "", 0⟩)] 100 msW none _).2
      (.inr ⟨.str "", rfl, rfl⟩)).2 bodyHello (.str "Hello") rfl rfl).2
  · exact ((chatCompletion_cache_contract [] 0 msW none _).2 (.inl rfl)).1

set_option maxRecDepth 1000000 in
/-- C1 (counterexample): a cache entry younger than 24 hours whose
stored content is the empty string is not returned: the lookup finds it,
yet chatCompletion still performs the network call, returns the network
content and overwrites the entry, because if (cached) is false for the
empty string. -/
theorem chatCompletion_empty_content_bypasses_cache :
    getCachedResponse [(generateCacheKey msW none, ⟨.str "", 0⟩)] 100 msW
        none = some (.str "") ∧
    (chatCompletion [(generateCacheKey msW none, ⟨.str "", 0⟩)] 100 msW none
        (.ok bodyHello)).networkCalled = true ∧
    (chatCompletion [(generateCacheKey msW none, ⟨.str "", 0⟩)] 100 msW none
        (.ok bodyHello)).outcome = .ok (.str "Hello") :=
  ⟨rfl, rfl, rfl⟩

/-- C2 (amended): for every 2xx body whose choices field is present and
not null, the atomic call never errors on the extraction, and the
outcome is fully characterized: whenever the inner
choices[0]?.message?.content shape is missing the content or carries a
falsy one, the returned content is the empty string — in particular for
zero choices and for a first choice with no message — and whenever the
first choice carries a truthy content, exactly that content is
returned. A body without a choices array instead fails (see the
counterexample). -/
theorem chatCompletion_extraction_contract (now : Int) (ms : List Message)
    (t : Option Int) (body c : Json) (hb : jsObjField body "choices" = some c)
    (hn : c ≠ .null) :
    (∃ v, (chatCompletion [] now ms t (.ok body)).outcome = .ok v) ∧
    ((choiceMessageContent (jsIndex0 c) = none ∨
        ∃ v, choiceMessageContent (jsIndex0 c) = some v ∧ jsTruthy v = false)
      → (chatCompletion [] now ms t (.ok body)).outcome = .ok (.str "")) ∧
    (∀ v, choiceMessageContent (jsIndex0 c) = some v → jsTruthy v = true →
      (chatCompletion [] now ms t (.ok body)).outcome = .ok v) := by
  have hmiss : getCachedResponse [] now ms t = none := rfl
  have hex : extractAtomicContent body =
      .ok (match choiceMessageContent (jsIndex0 c) with
           | some v => if jsTruthy v then v else .str ""
           | none => .str "") := by
    unfold extractAtomicContent
    cases body with
    | null => simp [jsObjField] at hb
    | bool b => simp [jsObjField] at hb
    | num q => simp [jsObjField] at hb
    | str s => simp [jsObjField] at hb
    | arr l => simp [jsObjField] at hb
    | obj fs =>
      rw [hb]
      cases c with
      | null => exact absurd rfl hn
      | bool b => rfl
      | num q => rfl
      | str s => rfl
      | arr l => rfl
      | obj fs2 => rfl
  have houtcome : (chatCompletion [] now ms t (.ok body)).outcome =
      .ok (match choiceMessageContent (jsIndex0 c) with
           | some v => if jsTruthy v then v else .str ""
           | none => .str "") := by
    rw [chatCompletion_miss [] now ms t _ hmiss,
      chatCompletionNet_ok [] now ms t body _ hex]
  refine ⟨⟨_, houtcome⟩, ?_, ?_⟩
  · intro h
    rw [houtcome]
    rcases h with h | ⟨v, hv, ht⟩
    · rw [h]
    · rw [hv]
      simp [ht]
  · intro v hv ht
    rw [houtcome, hv]
    simp [ht]

/-- Witness for C2: zero choices and a bare first choice both extract to
the empty string, not to an error, and a first choice carrying the
content Hello extracts to exactly that string. -/
theorem chatCompletion_extraction_contract_witness :
    (chatCompletion [] 0 msW none (.ok bodyEmptyChoices)).outcome =
      .ok (.str "") ∧
    (chatCompletion [] 0 msW none (.ok bodyBareChoice)).outcome =
      .ok (.str "") ∧
    (chatCompletion [] 0 msW none (.ok bodyHello)).outcome =
      .ok (.str "Hello") := by
  refine ⟨?_, ?_, ?_⟩
  · exact (chatCompletion_extraction_contract 0 msW none bodyEmptyChoices
      (.arr []) rfl (fun hx => Json.noConfusion hx)).2.1 (.inl rfl)
  · exact (chatCompletion_extraction_contract 0 msW none bodyBareChoice
      (.arr [.obj []]) rfl (fun hx => Json.noConfusion hx)).2.1 (.inl rfl)
  · exact (chatCompletion_extraction_contract 0 msW none bodyHello
      (.arr [.obj [("message", .obj [("content", .str "Hello")])]]) rfl
      (fun hx => Json.noConfusion hx)).2.2 (.str "Hello") rfl rfl

/-- C2 (counterexample): a 2xx body carrying no choices array at all
does not yield the empty string: evaluating data.choices[0] on an
undefined choices throws, so the call ends in the generic failure
outcome. -/
theorem chatCompletion_missing_choices_fails :
    (chatCompletion [] 0 msW none (.ok bodyNoChoices)).outcome = .failed := rfl

theorem concatJs_concat (l : List Json) (v : Json) :
    concatJs (l ++ [v]) = concatJs l ++ jsToString v := by
  unfold concatJs
  rw [List.map_append, List.foldl_append]
  rfl

theorem runReads_chunk_eqn (st : StreamState) (s : String)
    (l : List ReadEvent) :
    runReads st (.chunk s :: l) =
      (match processLines
          { st with
            buffer := ((jsSplitNL (st.buffer ++ s.data)).getLast?).getD [] }
          (jsSplitNL (st.buffer ++ s.data)).dropLast with
       | .error st3 => RunEnd.doneHit st3
       | .ok st3 => runReads st3 l) := rfl

theorem runReads_append (st : StreamState) (l1 l2 : List ReadEvent) :
    runReads st (l1 ++ l2) =
      (match runReads st l1 with
       | .ended st2 => runReads st2 l2
       | .doneHit st2 => .doneHit st2
       | .aborted st2 => .aborted st2
       | .readFailed st2 => .readFailed st2) := by
  induction l1 generalizing st with
  | nil => rfl
  | cons e rest ih =>
    cases e with
    | abortError => rfl
    | netError => rfl
    | chunk s =>
      rw [List.cons_append, runReads_chunk_eqn, runReads_chunk_eqn]
      cases processLines
          { st with
            buffer := ((jsSplitNL (st.buffer ++ s.data)).getLast?).getD [] }
          (jsSplitNL (st.buffer ++ s.data)).dropLast with
      | error st3 => rfl
      | ok st3 => exact ih st3

theorem processLine_consistent (st : StreamState) (line : List Char)
    (h : deliveredConsistent st) :
    deliveredConsistent (exceptState (processLine st line)) := by
  unfold processLine
  split
  · split
    · exact h
    · split
      · exact h
      · split
        · split
          · rename_i htv
            obtain ⟨h1, h2, h3⟩ := h
            refine ⟨?_, ?_, ?_⟩
            · simp [exceptState, h1]
            · simp [exceptState, h2, concatJs_concat]
            · intro w hw
              simp only [exceptState] at hw
              rcases List.mem_append.mp hw with hw | hw
              · exact h3 w hw
              · rw [List.mem_singleton] at hw
                subst hw
                exact htv
          · exact h
        · exact h
  · exact h

theorem processLines_consistent (lines : List (List Char)) (st : StreamState)
    (h : deliveredConsistent st) :
    deliveredConsistent (exceptState (processLines st lines)) := by
  induction lines generalizing st with
  | nil => exact h
  | cons l ls ih =>
    unfold processLines
    cases hp : processLine st l with
    | error st2 =>
      have h2 := processLine_consistent st l h
      rw [hp] at h2
      exact h2
    | ok st2 =>
      have h2 := processLine_consistent st l h
      rw [hp] at h2
      exact ih st2 h2

theorem runReads_consistent (reads : List ReadEvent) (st : StreamState)
    (h : deliveredConsistent st) :
    deliveredConsistent (runEndState (runReads st reads)) := by
  induction reads generalizing st with
  | nil => exact h
  | cons e rest ih =>
    cases e with
    | abortError => exact h
    | netError => exact h
    | chunk s =>
      rw [runReads_chunk_eqn]
      have hbuf : deliveredConsistent
          { st with
            buffer := ((jsSplitNL (st.buffer ++ s.data)).getLast?).getD [] } := h
      cases hp : processLines
          { st with
            buffer := ((jsSplitNL (st.buffer ++ s.data)).getLast?).getD [] }
          (jsSplitNL (st.buffer ++ s.data)).dropLast with
      | error st3 =>
        have h3 := processLines_consistent
          (jsSplitNL (st.buffer ++ s.data)).dropLast _ hbuf
        rw [hp] at h3
        exact h3
      | ok st3 =>
        have h3 := processLines_consistent
          (jsSplitNL (st.buffer ++ s.data)).dropLast _ hbuf
        rw [hp] at h3
        exact ih st3 h3

/-- C6: streaming performs no cache gate: the network is contacted on
every call whatever the cache holds (in particular on what would be a
fresh hit), the outcome and the yielded values are independent of the
cache table and of the clock, the cache is overwritten exactly on a
successful stream and is untouched on every other outcome. -/
theorem chatCompletionStream_no_cache_gate (cache cache2 : PromptCache)
    (now now2 : Int) (ms : List Message) (t : Option Int) (ok : Bool)
    (status : Nat) (errBody : String) (reads : List ReadEvent) :
    (chatCompletionStream cache now ms t ok status errBody reads).networkCalled
        = true ∧
    (chatCompletionStream cache now ms t ok status errBody reads).outcome =
      (chatCompletionStream cache2 now2 ms t ok status errBody reads).outcome ∧
    (chatCompletionStream cache now ms t ok status errBody reads).yields =
      (chatCompletionStream cache2 now2 ms t ok status errBody reads).yields ∧
    (∀ s, (chatCompletionStream cache now ms t ok status errBody reads).outcome
        = .success s →
      (chatCompletionStream cache now ms t ok status errBody reads).cache =
        setCachedResponse cache now ms t (.str s)) ∧
    ((∀ s, (chatCompletionStream cache now ms t ok status errBody reads).outcome
        ≠ .success s) →
      (chatCompletionStream cache now ms t ok status errBody reads).cache =
        cache) := by
  unfold chatCompletionStream
  cases ok with
  | false =>
    refine ⟨rfl, rfl, rfl, ?_, ?_⟩
    · intro s hs
      exact StreamOutcome.noConfusion hs
    · intro _
      rfl
  | true =>
    cases runReads initStreamState reads with
    | ended st =>
      refine ⟨rfl, rfl, rfl, ?_, ?_⟩
      · intro s hs
        cases hs
        rfl
      · intro hne
        exact absurd rfl (hne st.fullContent)
    | doneHit st =>
      refine ⟨rfl, rfl, rfl, ?_, ?_⟩
      · intro s hs
        cases hs
        rfl
      · intro hne
        exact absurd rfl (hne st.fullContent)
    | aborted st =>
      refine ⟨rfl, rfl, rfl, ?_, ?_⟩
      · intro s hs
        exact StreamOutcome.noConfusion hs
      · intro _
        rfl
    | readFailed st =>
      refine ⟨rfl, rfl, rfl, ?_, ?_⟩
      · intro s hs
        exact StreamOutcome.noConfusion hs
      · intro _
        rfl

/-- Witness for C6: with a fresh truthy cache entry present for the
request fingerprint, the streaming call still contacts the network, and
an aborted stream leaves that entry untouched. -/
theorem chatCompletionStream_no_cache_gate_witness :
    (chatCompletionStream [(generateCacheKey msW none, ⟨.str "cached", 0⟩)]
        100 msW none true 200 "" [.abortError]).networkCalled = true ∧
    (chatCompletionStream [(generateCacheKey msW none, ⟨.str "cached", 0⟩)]
        100 msW none true 200 "" [.abortError]).cache =
      [(generateCacheKey msW none, ⟨.str "cached", 0⟩)] := by
  have h := chatCompletionStream_no_cache_gate
    [(generateCacheKey msW none, ⟨.str "cached", 0⟩)] [] 100 0 msW none true
    200 "" [.abortError]
  refine ⟨h.1, h.2.2.2.2 ?_⟩
  intro s hs
  exact StreamOutcome.noConfusion hs

/-- C7: cancellation mid-stream: if the read loop over the earlier reads
was still going (ended state of the prefix) and the next read rejects
with AbortError, the call ends in the Cancelled outcome — distinct from
the generic failure — and the cache is exactly the initial table: no
entry was written for the fingerprint. -/
theorem chatCompletionStream_cancel_no_write (cache : PromptCache)
    (now : Int) (ms : List Message) (t : Option Int) (status : Nat)
    (errBody : String) (pre rest : List ReadEvent) (st : StreamState)
    (h : runReads initStreamState pre = .ended st) :
    (chatCompletionStream cache now ms t true status errBody
        (pre ++ .abortError :: rest)).outcome = .cancelled ∧
    (chatCompletionStream cache now ms t true status errBody
        (pre ++ .abortError :: rest)).outcome ≠ .failed ∧
    (chatCompletionStream cache now ms t true status errBody
        (pre ++ .abortError :: rest)).cache = cache := by
  have hrun : runReads initStreamState (pre ++ .abortError :: rest) =
      .aborted st := by
    rw [runReads_append, h]
    rfl
  unfold chatCompletionStream
  rw [hrun]
  refine ⟨rfl, ?_, rfl⟩
  intro hx
  exact StreamOutcome.noConfusion hx

set_option maxRecDepth 1000000 in
/-- Witness for C7: a first read delivers the delta Hi, the second read
rejects with AbortError; the call is cancelled and the empty cache stays
empty. -/
theorem chatCompletionStream_cancel_no_write_witness :
    (chatCompletionStream [] 0 msW none true 200 ""
        ([.chunk chunkHi] ++ .abortError :: [])).outcome = .cancelled ∧
    (chatCompletionStream [] 0 msW none true 200 ""
        ([.chunk chunkHi] ++ .abortError :: [])).cache = [] := by
  have h := chatCompletionStream_cancel_no_write [] 0 msW none 200 ""
    [.chunk chunkHi] [] ⟨[], "Hi", [.str "Hi"], [.str "Hi"]⟩ rfl
  exact ⟨h.1, h.2.2⟩

theorem foldl_strcat_shift (l : List String) : ∀ b : String,
    l.foldl (fun a b => a ++ b) b = b ++ l.foldl (fun a b => a ++ b) "" := by
  induction l with
  | nil =>
    intro b
    rw [List.foldl_nil, List.foldl_nil, String.append_empty]
  | cons x xs ih =>
    intro b
    rw [List.foldl_cons, List.foldl_cons, ih (b ++ x), ih ("" ++ x),
      String.empty_append, String.append_assoc]

theorem concatJs_nil : concatJs [] = "" := rfl

theorem concatJs_cons (v : Json) (l : List Json) :
    concatJs (v :: l) = jsToString v ++ concatJs l := by
  unfold concatJs
  rw [List.map_cons, List.foldl_cons, foldl_strcat_shift, String.empty_append]

theorem processLine_done_eq (st : StreamState) (l : List Char)
    (h : isDoneLine l) : processLine st l = .error st := by
  obtain ⟨h1, h2⟩ := h
  simp [processLine, h1, h2]

theorem processLine_ok_spec (st : StreamState) (l : List Char)
    (h : ¬ isDoneLine l) :
    ∃ st2, processLine st l = .ok st2 ∧
      st2.yields = st.yields ++ (lineDelta l).toList ∧
      st2.callbacks = st.callbacks ++ (lineDelta l).toList ∧
      st2.fullContent = st.fullContent ++ concatJs ((lineDelta l).toList) ∧
      st2.buffer = st.buffer := by
  by_cases hp : dataMarker.isPrefixOf l = true
  · by_cases hdn : l.drop 6 = doneLit
    · exact absurd ⟨hp, hdn⟩ h
    · cases hj : jsonParse (l.drop 6) with
      | none =>
        have hld : lineDelta l = none := by simp [lineDelta, hp, hdn, hj]
        have hpl : processLine st l = .ok st := by
          simp [processLine, hp, hdn, hj]
        exact ⟨st, hpl, by simp [hld], by simp [hld],
          by simp [hld, concatJs_nil, String.append_empty], rfl⟩
      | some parsed =>
        cases he : extractDeltaContent parsed with
        | none =>
          have hld : lineDelta l = none := by
            simp [lineDelta, hp, hdn, hj, he]
          have hpl : processLine st l = .ok st := by
            simp [processLine, hp, hdn, hj, he]
          exact ⟨st, hpl, by simp [hld], by simp [hld],
            by simp [hld, concatJs_nil, String.append_empty], rfl⟩
        | some v =>
          by_cases htv : jsTruthy v = true
          · have hld : lineDelta l = some v := by
              simp [lineDelta, hp, hdn, hj, he, htv]
            have hpl : processLine st l = .ok
                { st with
                  fullContent := st.fullContent ++ jsToString v,
                  yields := st.yields ++ [v],
                  callbacks := st.callbacks ++ [v] } := by
              simp [processLine, hp, hdn, hj, he, htv]
            refine ⟨_, hpl, ?_, ?_, ?_, rfl⟩
            · simp [hld]
            · simp [hld]
            · simp [hld, concatJs_cons, concatJs_nil, String.append_empty]
          · have hld : lineDelta l = none := by
              simp [lineDelta, hp, hdn, hj, he, htv]
            have hpl : processLine st l = .ok st := by
              simp [processLine, hp, hdn, hj, he, htv]
            exact ⟨st, hpl, by simp [hld], by simp [hld],
              by simp [hld, concatJs_nil, String.append_empty], rfl⟩
  · have hld : lineDelta l = none := by simp [lineDelta, hp]
    have hpl : processLine st l = .ok st := by simp [processLine, hp]
    exact ⟨st, hpl, by simp [hld], by simp [hld],
      by simp [hld, concatJs_nil, String.append_empty], rfl⟩

theorem processLines_no_done (lines : List (List Char)) :
    ∀ st : StreamState, (∀ l ∈ lines, ¬ isDoneLine l) →
    ∃ st2, processLines st lines = .ok st2 ∧
      st2.yields = st.yields ++ lines.filterMap lineDelta ∧
      st2.callbacks = st.callbacks ++ lines.filterMap lineDelta ∧
      st2.fullContent =
        st.fullContent ++ concatJs (lines.filterMap lineDelta) ∧
      st2.buffer = st.buffer := by
  induction lines with
  | nil =>
    intro st _
    exact ⟨st, rfl, by simp, by simp,
      by simp [concatJs_nil, String.append_empty], rfl⟩
  | cons l ls ih =>
    intro st hnd
    obtain ⟨st1, hpl, hy1, hc1, hf1, hb1⟩ :=
      processLine_ok_spec st l (hnd l (List.mem_cons_self l ls))
    obtain ⟨st2, hpls, hy2, hc2, hf2, hb2⟩ :=
      ih st1 (fun x hx => hnd x (List.mem_cons_of_mem l hx))
    refine ⟨st2, ?_, ?_, ?_, ?_, ?_⟩
    · unfold processLines
      rw [hpl]
      exact hpls
    · rw [hy2, hy1, List.filterMap_cons]
      cases lineDelta l <;> simp
    · rw [hc2, hc1, List.filterMap_cons]
      cases lineDelta l <;> simp
    · rw [hf2, hf1, List.filterMap_cons]
      cases lineDelta l <;>
        simp [concatJs_cons, concatJs_nil, String.append_empty,
          String.append_assoc]
    · rw [hb2, hb1]

theorem processLines_with_done (lines : List (List Char)) :
    ∀ st : StreamState, (∃ l ∈ lines, isDoneLine l) →
    ∃ st2, processLines st lines = .error st2 ∧
      st2.yields = st.yields ++ (untilDone lines).filterMap lineDelta ∧
      st2.callbacks = st.callbacks ++ (untilDone lines).filterMap lineDelta ∧
      st2.fullContent =
        st.fullContent ++ concatJs ((untilDone lines).filterMap lineDelta) ∧
      st2.buffer = st.buffer := by
  induction lines with
  | nil =>
    intro st h
    obtain ⟨l, hl, _⟩ := h
    exact absurd hl (List.not_mem_nil l)
  | cons l ls ih =>
    intro st h
    by_cases hd : isDoneLine l
    · refine ⟨st, ?_, ?_, ?_, ?_, rfl⟩
      · unfold processLines
        rw [processLine_done_eq st l hd]
      · simp [untilDone, hd]
      · simp [untilDone, hd]
      · simp [untilDone, hd, concatJs_nil, String.append_empty]
    · have hls : ∃ x ∈ ls, isDoneLine x := by
        obtain ⟨x, hx, hxd⟩ := h
        rcases List.mem_cons.mp hx with hx | hx
        · subst hx
          exact absurd hxd hd
        · exact ⟨x, hx, hxd⟩
      obtain ⟨st1, hpl, hy1, hc1, hf1, hb1⟩ := processLine_ok_spec st l hd
      obtain ⟨st2, hpls, hy2, hc2, hf2, hb2⟩ := ih st1 hls
      refine ⟨st2, ?_, ?_, ?_, ?_, ?_⟩
      · unfold processLines
        rw [hpl]
        exact hpls
      · rw [hy2, hy1]
        simp only [untilDone, hd, if_false, List.filterMap_cons]
        cases lineDelta l <;> simp
      · rw [hc2, hc1]
        simp only [untilDone, hd, if_false, List.filterMap_cons]
        cases lineDelta l <;> simp
      · rw [hf2, hf1]
        simp only [untilDone, hd, if_false, List.filterMap_cons]
        cases lineDelta l <;>
          simp [concatJs_cons, concatJs_nil, String.append_empty,
            String.append_assoc]
      · rw [hb2, hb1]

theorem untilDone_append_done (A B : List (List Char)) :
    (∃ l ∈ A, isDoneLine l) → untilDone (A ++ B) = untilDone A := by
  induction A with
  | nil =>
    intro h
    obtain ⟨l, hl, _⟩ := h
    exact absurd hl (List.not_mem_nil l)
  | cons l ls ih =>
    intro h
    by_cases hd : isDoneLine l
    · simp [untilDone, hd]
    · have hls : ∃ x ∈ ls, isDoneLine x := by
        obtain ⟨x, hx, hxd⟩ := h
        rcases List.mem_cons.mp hx with hx | hx
        · subst hx
          exact absurd hxd hd
        · exact ⟨x, hx, hxd⟩
      simp [untilDone, hd, ih hls]

theorem untilDone_append_clean (A B : List (List Char)) :
    (∀ l ∈ A, ¬ isDoneLine l) → untilDone (A ++ B) = A ++ untilDone B := by
  induction A with
  | nil =>
    intro _
    rfl
  | cons l ls ih =>
    intro h
    have hd := h l (List.mem_cons_self l ls)
    simp [untilDone, hd, ih (fun x hx => h x (List.mem_cons_of_mem l hx))]

theorem streamLines_chunk (buffer : List Char) (s : String)
    (rest : List ReadEvent) :
    streamLines buffer (.chunk s :: rest) =
      (jsSplitNL (buffer ++ s.data)).dropLast ++
        streamLines (((jsSplitNL (buffer ++ s.data)).getLast?).getD []) rest :=
  rfl

theorem lineDelta_truthy (l : List Char) (v : Json)
    (h : lineDelta l = some v) : jsTruthy v = true := by
  unfold lineDelta at h
  split at h
  · split at h
    · exact Option.noConfusion h
    · split at h
      · exact Option.noConfusion h
      · split at h
        · split at h
          · rename_i htv
            injection h with h2
            subst h2
            exact htv
          · exact Option.noConfusion h
        · exact Option.noConfusion h
  · exact Option.noConfusion h

theorem streamDeltas_truthy (b : List Char) (reads : List ReadEvent) :
    ∀ v ∈ streamDeltas b reads, jsTruthy v = true := by
  intro v hv
  obtain ⟨l, _, hld⟩ := List.mem_filterMap.mp hv
  exact lineDelta_truthy l v hld

theorem concatJs_append (l1 l2 : List Json) :
    concatJs (l1 ++ l2) = concatJs l1 ++ concatJs l2 := by
  unfold concatJs
  rw [List.map_append, List.foldl_append, foldl_strcat_shift]

theorem runReads_delta_spec (reads : List ReadEvent) : ∀ st : StreamState,
    (runEndState (runReads st reads)).yields =
        st.yields ++ streamDeltas st.buffer reads ∧
    (runEndState (runReads st reads)).callbacks =
        st.callbacks ++ streamDeltas st.buffer reads ∧
    (runEndState (runReads st reads)).fullContent =
        st.fullContent ++ concatJs (streamDeltas st.buffer reads) := by
  induction reads with
  | nil =>
    intro st
    refine ⟨?_, ?_, ?_⟩ <;>
      simp [streamDeltas, streamLines, untilDone, runReads, runEndState,
        concatJs_nil, String.append_empty]
  | cons e rest ih =>
    intro st
    cases e with
    | abortError =>
      refine ⟨?_, ?_, ?_⟩ <;>
        simp [streamDeltas, streamLines, untilDone, runReads, runEndState,
          concatJs_nil, String.append_empty]
    | netError =>
      refine ⟨?_, ?_, ?_⟩ <;>
        simp [streamDeltas, streamLines, untilDone, runReads, runEndState,
          concatJs_nil, String.append_empty]
    | chunk s =>
      rw [runReads_chunk_eqn]
      by_cases hd :
          ∃ l ∈ (jsSplitNL (st.buffer ++ s.data)).dropLast, isDoneLine l
      · obtain ⟨st3, hpls, hy, hc, hf, hb⟩ :=
          processLines_with_done (jsSplitNL (st.buffer ++ s.data)).dropLast
            { st with
              buffer := ((jsSplitNL (st.buffer ++ s.data)).getLast?).getD [] }
            hd
        rw [hpls]
        have hsd : streamDeltas st.buffer (.chunk s :: rest) =
            ((untilDone (jsSplitNL (st.buffer ++ s.data)).dropLast).filterMap
              lineDelta) := by
          unfold streamDeltas
          rw [streamLines_chunk, untilDone_append_done _ _ hd]
        refine ⟨?_, ?_, ?_⟩
        · show st3.yields =
            st.yields ++ streamDeltas st.buffer (.chunk s :: rest)
          rw [hsd]
          exact hy
        · show st3.callbacks =
            st.callbacks ++ streamDeltas st.buffer (.chunk s :: rest)
          rw [hsd]
          exact hc
        · show st3.fullContent =
            st.fullContent ++
              concatJs (streamDeltas st.buffer (.chunk s :: rest))
          rw [hsd]
          exact hf
      · have hnd : ∀ l ∈ (jsSplitNL (st.buffer ++ s.data)).dropLast,
            ¬ isDoneLine l := by
          intro x hx hxd
          exact hd ⟨x, hx, hxd⟩
        obtain ⟨st3, hpls, hy, hc, hf, hb⟩ :=
          processLines_no_done (jsSplitNL (st.buffer ++ s.data)).dropLast
            { st with
              buffer := ((jsSplitNL (st.buffer ++ s.data)).getLast?).getD [] }
            hnd
        rw [hpls]
        obtain ⟨ihy, ihc, ihf⟩ := ih st3
        have hsd : streamDeltas st.buffer (.chunk s :: rest) =
            ((jsSplitNL (st.buffer ++ s.data)).dropLast.filterMap lineDelta)
              ++ streamDeltas
                (((jsSplitNL (st.buffer ++ s.data)).getLast?).getD []) rest
            := by
          unfold streamDeltas
          rw [streamLines_chunk, untilDone_append_clean _ _ hnd,
            List.filterMap_append]
        refine ⟨?_, ?_, ?_⟩
        · show (runEndState (runReads st3 rest)).yields =
            st.yields ++ streamDeltas st.buffer (.chunk s :: rest)
          rw [ihy, hy, hb, hsd]
          dsimp only
          rw [List.append_assoc]
        · show (runEndState (runReads st3 rest)).callbacks =
            st.callbacks ++ streamDeltas st.buffer (.chunk s :: rest)
          rw [ihc, hc, hb, hsd]
          dsimp only
          rw [List.append_assoc]
        · show (runEndState (runReads st3 rest)).fullContent =
            st.fullContent ++
              concatJs (streamDeltas st.buffer (.chunk s :: rest))
          rw [ihf, hf, hb, hsd]
          dsimp only
          rw [concatJs_append, String.append_assoc]

/-- C8 (amended): the streaming call delivers exactly the truthy content
deltas decoded from the data lines before the sentinel, in stream order:
the generator yields precisely that list, the onChunk callback receives
precisely that list, every delivered value is truthy, and the terminal
value of a successful stream is their concatenation. A decoded falsy
delta, such as the empty string, is skipped by all three channels at
once (see the counterexample). -/
theorem chatCompletionStream_delivery (cache : PromptCache) (now : Int)
    (ms : List Message) (t : Option Int) (status : Nat) (errBody : String)
    (reads : List ReadEvent) :
    (chatCompletionStream cache now ms t true status errBody reads).yields =
        streamDeltas [] reads ∧
    (chatCompletionStream cache now ms t true status errBody
        reads).callbacks = streamDeltas [] reads ∧
    (∀ v ∈ streamDeltas [] reads, jsTruthy v = true) ∧
    (∀ s, (chatCompletionStream cache now ms t true status errBody
        reads).outcome = .success s →
      s = concatJs (streamDeltas [] reads)) := by
  obtain ⟨hy, hc, hf⟩ := runReads_delta_spec reads initStreamState
  unfold chatCompletionStream
  cases hr : runReads initStreamState reads with
  | ended st =>
    rw [hr] at hy hc hf
    refine ⟨hy, hc, streamDeltas_truthy [] reads, ?_⟩
    intro s hs
    have hs2 : StreamOutcome.success st.fullContent = .success s := hs
    injection hs2 with h4
    rw [← h4]
    exact hf
  | doneHit st =>
    rw [hr] at hy hc hf
    refine ⟨hy, hc, streamDeltas_truthy [] reads, ?_⟩
    intro s hs
    have hs2 : StreamOutcome.success st.fullContent = .success s := hs
    injection hs2 with h4
    rw [← h4]
    exact hf
  | aborted st =>
    rw [hr] at hy hc hf
    refine ⟨hy, hc, streamDeltas_truthy [] reads, ?_⟩
    intro s hs
    exact StreamOutcome.noConfusion hs
  | readFailed st =>
    rw [hr] at hy hc hf
    refine ⟨hy, hc, streamDeltas_truthy [] reads, ?_⟩
    intro s hs
    exact StreamOutcome.noConfusion hs

set_option maxRecDepth 1000000 in
/-- Witness for C8 on the specification decoder example: two deltas
split across reads mid-line, then the sentinel; the generator yields
exactly the decoded deltas Hi and the-space-there, the callback list
equals it, and the accumulated terminal value is their concatenation. -/
theorem chatCompletionStream_delivery_witness :
    (chatCompletionStream [] 0 msW none true 200 ""
        [.chunk (chunkHi ++ chunkSplitA), .chunk chunkSplitB]).yields =
      streamDeltas [] [.chunk (chunkHi ++ chunkSplitA), .chunk chunkSplitB] ∧
    streamDeltas [] [.chunk (chunkHi ++ chunkSplitA), .chunk chunkSplitB] =
      [.str "Hi", .str " there"] ∧
    "Hi there" = concatJs
      (streamDeltas [] [.chunk (chunkHi ++ chunkSplitA), .chunk chunkSplitB])
    := by
  have h := chatCompletionStream_delivery [] 0 msW none 200 ""
    [.chunk (chunkHi ++ chunkSplitA), .chunk chunkSplitB]
  exact ⟨h.1, rfl, h.2.2.2 "Hi there" rfl⟩

set_option maxRecDepth 1000000 in
/-- C8 (counterexample): a data line decodes to the content delta empty
string, yet neither the generator nor the callback receives it: the
if (content) guard drops falsy deltas entirely. -/
theorem chatCompletionStream_empty_delta_skipped :
    jsonParse ((chunkEmptyDelta.data.dropLast).drop 6) = some emptyDeltaJson ∧
    extractDeltaContent emptyDeltaJson = some (.str "") ∧
    (chatCompletionStream [] 0 msW none true 200 ""
        [.chunk chunkEmptyDelta]).yields = [] ∧
    (chatCompletionStream [] 0 msW none true 200 ""
        [.chunk chunkEmptyDelta]).callbacks = [] :=
  ⟨rfl, rfl, rfl, rfl⟩

theorem runReads_chunks_end (chunks : List String) : ∀ st : StreamState,
    (∃ st2, runReads st (chunks.map .chunk) = .ended st2) ∨
    (∃ st2, runReads st (chunks.map .chunk) = .doneHit st2) := by
  induction chunks with
  | nil =>
    intro st
    exact .inl ⟨st, rfl⟩
  | cons c rest ih =>
    intro st
    rw [List.map_cons, runReads_chunk_eqn]
    cases processLines
        { st with
          buffer := ((jsSplitNL (st.buffer ++ c.data)).getLast?).getD [] }
        (jsSplitNL (st.buffer ++ c.data)).dropLast with
    | error st3 => exact .inr ⟨st3, rfl⟩
    | ok st3 => exact ih st3

/-- C10: when every read of the body delivers a chunk and the reader
then reports done — whether or not a [DONE] sentinel line was ever
decoded — the stream ends in success and the accumulated text is
written to the cache under the request fingerprint, exactly as on a
sentinel-terminated stream: both paths write and return the same way. -/
theorem chatCompletionStream_eof_writes_cache (cache : PromptCache)
    (now : Int) (ms : List Message) (t : Option Int) (status : Nat)
    (errBody : String) (chunks : List String) :
    ∃ s, (chatCompletionStream cache now ms t true status errBody
        (chunks.map .chunk)).outcome = .success s ∧
      (chatCompletionStream cache now ms t true status errBody
        (chunks.map .chunk)).cache =
        setCachedResponse cache now ms t (.str s) := by
  unfold chatCompletionStream
  rcases runReads_chunks_end chunks initStreamState with ⟨st2, h⟩ | ⟨st2, h⟩ <;>
    rw [h] <;> exact ⟨st2.fullContent, rfl, rfl⟩

/-- C9 (amended): a storage read that throws, a missing or empty stored
value, and a stored value JSON.parse rejects all fall back to the empty
table: the loaded cache is the empty object and getCacheSize reports 0.
A blob that parses is installed without structural validation (see the
counterexample). -/
theorem loadCache_failure_empty (r : StorageRead)
    (h : r = .throws ∨ r = .value none ∨ r = .value (some "") ∨
      ∃ s, r = .value (some s) ∧ jsonParse s.data = none) :
    loadCache r = .obj [] ∧ getCacheSizeLoaded (loadCache r) = some 0 := by
  have he : loadCache r = .obj [] := by
    rcases h with h | h | h | ⟨s, h, hp⟩
    · subst h
      rfl
    · subst h
      rfl
    · subst h
      rfl
    · subst h
      show (if s = "" then Json.obj []
        else
          match jsonParse s.data with
          | none => Json.obj []
          | some j => j) = Json.obj []
      split
      · rfl
      · rw [hp]
  exact ⟨he, by rw [he]; rfl⟩

/-- Witness for C9: an unparseable blob leaves the empty table. -/
theorem loadCache_failure_empty_witness :
    loadCache (.value (some "corrupt")) = .obj [] ∧
    getCacheSizeLoaded (loadCache (.value (some "corrupt"))) = some 0 :=
  loadCache_failure_empty _ (.inr (.inr (.inr ⟨"corrupt", rfl, rfl⟩)))

/-- C9 (counterexample): a parseable but structurally incompatible blob
is not treated as empty: loading the array blob [1,2,3] installs it and
getCacheSize reports 3, not 0. -/
theorem loadCache_incompatible_blob_kept :
    getCacheSizeLoaded (loadCache (.value (some "[1,2,3]"))) = some 3 := rfl
